import Mathlib

/-!
Verification development for the page-reconstruction core of `rust-pdfium`
(`src/main.rs`).  The `f32` coordinates of the source are modelled as
rationals (`ℚ`), which share the exact comparison and min/max behaviour the
claims depend on; strings are Lean `String`s, and the external PDF engine's
rasterizer is an oracle parameter.
-/

/-- Loose bounding box of a glyph, as returned by `char.loose_bounds()` in
`extract_page_text_groups`: `left`, `right`, `width`, `height` in source
coordinate units. -/
structure LooseBounds where
  left : ℚ
  right : ℚ
  width : ℚ
  height : ℚ
deriving Repr, DecidableEq

/-- One character of the page's glyph stream, with the attributes the source
reads per char: `unicode_string()`, `font_name()`, `origin_x()`, `origin_y()`,
`loose_bounds()`. -/
structure Glyph where
  text : String
  font_family : String
  origin_x : ℚ
  origin_y : ℚ
  bounds : LooseBounds
deriving Repr, DecidableEq

/-- The source's `GeneratedRect` struct (one text block accumulator). -/
structure GeneratedRect where
  lx_pos : List ℚ
  ly_pos : List ℚ
  text : String
  font_family : String
  right : ℚ
  font_size : ℚ
deriving Repr, DecidableEq

/-- Character class `[\x00-\x08\x0B-\x0C\x0E-\x1F\x7F]` appearing in the
regex literal of `extract_page_text_groups` (line 170). -/
def inCtrlClass (c : Char) : Bool :=
  c.toNat ≤ 0x08 || (0x0B ≤ c.toNat && c.toNat ≤ 0x0C) ||
    (0x0E ≤ c.toNat && c.toNat ≤ 0x1F) || c.toNat == 0x7F

/-- Substring matching of the source pattern
`/[\x00-\x08\x0B-\x0C\x0E-\x1F\x7F]|\r|\n/`.  Rust regexes have no
delimiters, so the two slashes are literal characters of the pattern and the
three alternation branches are: a literal solidus followed by a class
character, a carriage return, and a line feed followed by a literal solidus.
`reMatchAux` scans every start position of the character list. -/
def reMatchAux : List Char → Bool
  | [] => false
  | [c] => c == '\r'
  | c1 :: c2 :: rest =>
    (c1 == '/' && inCtrlClass c2) || c1 == '\r' || (c1 == '\n' && c2 == '/') ||
      reMatchAux (c2 :: rest)

/-- `re.is_match(&curr)` of the source, on the embedded pattern. -/
def re_is_match (s : String) : Bool := reMatchAux s.data

/-- The skip condition of `extract_page_text_groups` (lines 186-195): the
source first rebinds `char_origin_y = page_height - char_origin_y` and then
skips the glyph when `char_origin_x < 0.0 || char_origin_y < 0.0 ||
re.is_match(&curr) || loose_bounds.height() == 0.0`. -/
def glyphRejected (page_height : ℚ) (g : Glyph) : Bool :=
  decide (g.origin_x < 0) || decide (page_height - g.origin_y < 0) ||
    re_is_match g.text || decide (g.bounds.height = 0)

/-- The `GeneratedRect` built when a glyph opens a new group (lines 206-213
and 227-234 of the source, which are identical). -/
def seedGroup (page_height : ℚ) (g : Glyph) : GeneratedRect :=
  { lx_pos := [g.origin_x]
  , ly_pos := [(page_height - g.origin_y) - g.bounds.height]
  , text := g.text
  , font_family := g.font_family
  , right := g.bounds.right
  , font_size := g.bounds.height }

/-- The in-place mutation of the open group when a glyph joins it
(lines 215-223): `font_size` is raised to the max first, and the pushed
y-position subtracts the already-updated `font_size`. -/
def extendGroup (page_height : ℚ) (g : Glyph) (cg : GeneratedRect) : GeneratedRect :=
  let fs := max cg.font_size g.bounds.height
  { lx_pos := cg.lx_pos ++ [g.origin_x]
  , ly_pos := cg.ly_pos ++ [(page_height - g.origin_y) - fs]
  , text := cg.text ++ g.text
  , font_family := cg.font_family
  , right := g.bounds.right
  , font_size := fs }

/-- `f32::abs` of the source, written out so it evaluates by `rfl`. -/
def ratAbs (q : ℚ) : Rat := if q < 0 then -q else q

/-- `is_close_enough` of the source (lines 199-200); despite its name it is
true when the glyph is FAR from the open group's right edge. -/
def is_close_enough (g : Glyph) (cg : GeneratedRect) : Bool :=
  decide (ratAbs (g.bounds.left - cg.right) > g.bounds.width + 5)

/-- `is_new_group` of the source (lines 201-202). -/
def is_new_group (g : Glyph) (cg : GeneratedRect) : Bool :=
  decide (cg.font_family ≠ g.font_family) || is_close_enough g cg

/-- One iteration of the source's char loop (lines 178-236), acting on the
state `(groups, current_group)`. -/
def stepGlyph (page_height : ℚ) (st : List GeneratedRect × Option GeneratedRect)
    (g : Glyph) : List GeneratedRect × Option GeneratedRect :=
  if glyphRejected page_height g then st
  else
    match st.2 with
    | some cg =>
      if is_new_group g cg then (st.1 ++ [cg], some (seedGroup page_height g))
      else (st.1, some (extendGroup page_height g cg))
    | none => (st.1, some (seedGroup page_height g))

/-- Flushing of the final open group at the end of the loop (lines 238-240). -/
def closeGroups : List GeneratedRect × Option GeneratedRect → List GeneratedRect
  | (groups, some cg) => groups ++ [cg]
  | (groups, none) => groups

/-- `extract_page_text_groups` (lines 169-242), on an explicit glyph stream:
fold the char loop from the empty state, then flush the open group. -/
def extract_page_text_groups (page_height : ℚ) (glyphs : List Glyph) :
    List GeneratedRect :=
  closeGroups (glyphs.foldl (stepGlyph page_height) ([], none))

/-- Glyphs of the stream that survive the skip condition. -/
def acceptedGlyphs (page_height : ℚ) (glyphs : List Glyph) : List Glyph :=
  glyphs.filter (fun g => !glyphRejected page_height g)

example :
    extract_page_text_groups 100
      [{ text := "H", font_family := "Arial", origin_x := 10, origin_y := 20,
         bounds := { left := 10, right := 18, width := 8, height := 12 } },
       { text := "i", font_family := "Arial", origin_x := 18, origin_y := 20,
         bounds := { left := 18, right := 22, width := 4, height := 12 } }] =
      [{ lx_pos := [10, 18], ly_pos := [68, 68], text := "Hi",
         font_family := "Arial", right := 22, font_size := 12 }] := by
  with_unfolding_all rfl

example :
    (extract_page_text_groups 100
      [{ text := "H", font_family := "Arial", origin_x := 10, origin_y := 20,
         bounds := { left := 10, right := 18, width := 8, height := 12 } },
       { text := "i", font_family := "Times", origin_x := 18, origin_y := 20,
         bounds := { left := 18, right := 22, width := 4, height := 12 } }]).length = 2 := by
  with_unfolding_all rfl

/-- Stand-in for the `Display` rendering of an `f32` (`num.to_string()` and
the `format!` interpolation of numbers in the source): any injective
rendering; the claims depend only on where numbers appear, not their
spelling. -/
def fmtNum (q : ℚ) : String := toString q

/-- `.iter().map(|num| num.to_string()).collect::<Vec<String>>().join(" ")`
of the source (lines 146-157). -/
def joinNums (xs : List ℚ) : String :=
  String.intercalate " " (xs.map fmtNum)

/-- The opening `format!` of `get_string_from_rects` (lines 123-132),
with the two page dimensions interpolated. -/
def svgOpenTag (page_width page_height : ℚ) : String :=
  "<svg \n        xmlns=\"http://www.w3.org/2000/svg\" \n        width=\"" ++
    fmtNum page_width ++ "\" \n        height=\"" ++ fmtNum page_height ++
    "\" \n        viewBox=\"0 0 " ++ fmtNum page_width ++ " " ++ fmtNum page_height ++
    "\" \n        style=\"font-family: -apple-system, BlinkMacSystemFont, \x27Segoe UI\x27, Roboto, sans-serif; text-rendering: optimizeLegibility; shape-rendering: geometricPrecision\"><title>text-layer</title>"

/-- The first `write!` of the rect loop (lines 136-141): the `<text>` tag
styled with the block's `font_size`. -/
def textOpenTag (font_size : ℚ) : String :=
  "<text \n            style=\"font-size:" ++ fmtNum font_size ++
    "pt; white-space: pre; text-rendering: geometricPrecision; dominant-baseline: hanging; font-weight: 400; letter-spacing: -0.01em; fill: rgb(230, 179, 179);\">"

/-- The second `write!` of the rect loop (lines 143-159): the `<tspan>` with
the whitespace-joined position lists and the block's text inserted verbatim. -/
def tspanTag (r : GeneratedRect) : String :=
  "<tspan x=\"" ++ joinNums r.lx_pos ++ "\" y=\"" ++ joinNums r.ly_pos ++
    "\">" ++ r.text ++ "</tspan></text>"

/-- `get_string_from_rects` (lines 118-164): empty input returns the empty
string; otherwise the svg header, the two `write!`s folded over the rects,
and the closing tag. -/
def get_string_from_rects (page_width page_height : ℚ)
    (rects : List GeneratedRect) : String :=
  if rects.isEmpty then "" else
    (rects.foldl (fun acc r => acc ++ textOpenTag r.font_size ++ tspanTag r)
      (svgOpenTag page_width page_height)) ++ "</svg>"

/-- Concatenation of a list of strings (used to state the serializer's
shape). -/
def concatStrings : List String → String
  | [] => ""
  | s :: rest => s ++ concatStrings rest

/-- Stated from the spec's words for §4.4: one text-run element per block,
carrying the block's `font_size`, its two whitespace-joined numeric position
lists, and its `text` as element content. -/
def textRunElem (font_size : ℚ) (xs ys content : String) : String :=
  textOpenTag font_size ++ "<tspan x=\"" ++ xs ++ "\" y=\"" ++ ys ++ "\">" ++
    content ++ "</tspan></text>"

/-- An RGBA color, modelling `PdfColor` of the engine bindings. -/
structure PdfColor where
  r : ℕ
  g : ℕ
  b : ℕ
  a : ℕ
deriving Repr, DecidableEq

/-- `PdfColor::WHITE`. -/
def PdfColor.WHITE : PdfColor := { r := 255, g := 255, b := 255, a := 255 }

/-- `PdfColor::with_alpha`. -/
def PdfColor.with_alpha (c : PdfColor) (a : ℕ) : PdfColor := { c with a := a }

/-- Bitmap formats used by the source (`PdfBitmapFormat::BGRA`). -/
inductive PdfBitmapFormat where
  | BGRA
deriving Repr, DecidableEq

/-- The render configuration built in `generate_page_images`
(lines 259-263): format, byte-order flag, clear color and target pixel
size. -/
structure PdfRenderConfig where
  format : PdfBitmapFormat
  reverse_byte_order : Bool
  clear_color : PdfColor
  target_width : ℤ
  target_height : ℤ
deriving Repr, DecidableEq

/-- Rust's `as i32` conversion of a (finite) `f32`: truncation toward
zero.  On a reduced rational `q`, `q.num.tdiv q.den` is exactly that. -/
def f32_as_i32 (q : ℚ) : ℤ := q.num.tdiv (q.den : ℤ)

/-- The color chosen at lines 252-255: white, with alpha 0 when the
transparency flag (`is_answer_book` at the call site) is set. -/
def clearColor (with_transparency : Bool) : PdfColor :=
  if with_transparency then PdfColor.WHITE.with_alpha 0 else PdfColor.WHITE

/-- The scale set of `generate_page_images` (line 257). -/
def scales : List ℚ := [1/4, 1/2, 1, 3/2, 2]

/-- The `PdfRenderConfig` requested for one scale (lines 259-263). -/
def renderConfigFor (page_width page_height : ℚ) (color : PdfColor)
    (scale : ℚ) : PdfRenderConfig :=
  { format := PdfBitmapFormat.BGRA
  , reverse_byte_order := true
  , clear_color := color
  , target_width := f32_as_i32 (page_width * scale)
  , target_height := f32_as_i32 (page_height * scale) }

/-- One image of the result (`PageImage` of the source): the scale and the
encoded buffer. -/
structure PageImage where
  scale : ℚ
  buffer : List ℕ
deriving Repr, DecidableEq

/-- The loop of `generate_page_images` (lines 258-280), with the external
engine's render-and-encode pipeline abstracted as the oracle `render`.  A
`none` from the oracle models a failed `render_with_config` or a failed PNG
`write_to`; the source `unwrap`s both, so the whole call aborts (`none`)
there and no later scale is attempted. -/
def generate_page_images_go (render : PdfRenderConfig → Option (List ℕ))
    (page_width page_height : ℚ) (color : PdfColor) :
    List ℚ → Option (List PageImage)
  | [] => some []
  | scale :: rest =>
    match render (renderConfigFor page_width page_height color scale) with
    | none => none
    | some buf =>
      match generate_page_images_go render page_width page_height color rest with
      | none => none
      | some imgs => some ({ scale := scale, buffer := buf } :: imgs)

/-- `generate_page_images` (lines 245-282). -/
def generate_page_images (render : PdfRenderConfig → Option (List ℕ))
    (page_width page_height : ℚ) (with_transparency : Bool) :
    Option (List PageImage) :=
  generate_page_images_go render page_width page_height
    (clearColor with_transparency) scales

lemma ratAbs_eq_abs (q : ℚ) : ratAbs q = |q| := by
  unfold ratAbs
  rcases lt_or_le q 0 with h | h
  · rw [if_pos h, abs_of_neg h]
  · rw [if_neg (not_lt.mpr h), abs_of_nonneg h]

lemma is_new_group_eq_false_iff (g : Glyph) (cg : GeneratedRect) :
    is_new_group g cg = false ↔
      (g.font_family = cg.font_family ∧
        |g.bounds.left - cg.right| ≤ g.bounds.width + 5) := by
  simp only [is_new_group, is_close_enough, ratAbs_eq_abs, Bool.or_eq_false_iff,
    decide_eq_false_iff_not, not_not, not_lt]
  constructor
  · exact fun h => ⟨h.1.symm, h.2⟩
  · exact fun h => ⟨h.1.symm, h.2⟩

lemma groups_ne_append_singleton (groups : List GeneratedRect)
    (cg : GeneratedRect) : groups ++ [cg] ≠ groups := by
  intro h
  have := congrArg List.length h
  simp at this

/-- C2: an accepted glyph arriving while a block is open extends it exactly
when the font family matches and the gap to the open block's right edge is
at most `width + 5`; a gap equal to the threshold still merges, and any
family mismatch or larger gap closes the block and seeds a new one. -/
theorem extend_iff_same_family_and_close (page_height : ℚ)
    (groups : List GeneratedRect) (cg : GeneratedRect) (g : Glyph)
    (hacc : glyphRejected page_height g = false) :
    (stepGlyph page_height (groups, some cg) g =
        (groups, some (extendGroup page_height g cg)) ↔
      (g.font_family = cg.font_family ∧
        |g.bounds.left - cg.right| ≤ g.bounds.width + 5)) ∧
    ((g.font_family ≠ cg.font_family ∨
        g.bounds.width + 5 < |g.bounds.left - cg.right|) →
      stepGlyph page_height (groups, some cg) g =
        (groups ++ [cg], some (seedGroup page_height g))) := by
  rcases hn : is_new_group g cg with _ | _
  · have hcond := (is_new_group_eq_false_iff g cg).mp hn
    constructor
    · simp [stepGlyph, hacc, hn, hcond]
    · intro hbad
      rcases hbad with hbad | hbad
      · exact absurd hcond.1 hbad
      · exact absurd hcond.2 (not_le.mpr hbad)
  · have hcond : ¬(g.font_family = cg.font_family ∧
        |g.bounds.left - cg.right| ≤ g.bounds.width + 5) := by
      intro hc
      rw [(is_new_group_eq_false_iff g cg).mpr hc] at hn
      cases hn
    constructor
    · constructor
      · intro heq
        exfalso
        apply groups_ne_append_singleton groups cg
        have : (groups ++ [cg], some (seedGroup page_height g)) =
            (groups, some (extendGroup page_height g cg)) := by
          rw [← heq]; simp [stepGlyph, hacc, hn]
        exact congrArg Prod.fst this
      · intro hc; exact absurd hc hcond
    · intro _; simp [stepGlyph, hacc, hn]

/-- Concrete open block used by the boundary witness: right edge 18. -/
def cgW : GeneratedRect :=
  { lx_pos := [10], ly_pos := [68], text := "H", font_family := "Arial",
    right := 18, font_size := 12 }

/-- Concrete glyph used by the boundary witness: the gap to `cgW.right` is
`|27 - 18| = 9`, exactly `width + 5 = 4 + 5`. -/
def gW : Glyph :=
  { text := "i", font_family := "Arial", origin_x := 27, origin_y := 20,
    bounds := { left := 27, right := 31, width := 4, height := 12 } }

theorem extend_iff_same_family_and_close_witness :
    stepGlyph 100 ([], some cgW) gW = ([], some (extendGroup 100 gW cgW)) := by
  apply ((extend_iff_same_family_and_close 100 [] cgW gW
      (by with_unfolding_all rfl)).1).mpr
  refine ⟨rfl, ?_⟩
  rw [show gW.bounds.left - cgW.right = 9 by with_unfolding_all rfl,
    show gW.bounds.width = 4 from rfl]
  norm_num

/-- C5: the first glyph of a block stores `normalized_y` minus its own
bounds height; a joining glyph first raises the block's `font_size` to the
max with its own height and stores `normalized_y` minus that post-update
`font_size`. -/
theorem y_offset_uses_block_font_size (page_height : ℚ) (g : Glyph)
    (cg : GeneratedRect) (groups : List GeneratedRect)
    (hacc : glyphRejected page_height g = false)
    (hext : is_new_group g cg = false) :
    stepGlyph page_height (groups, none) g =
      (groups, some (seedGroup page_height g)) ∧
    (seedGroup page_height g).ly_pos =
      [(page_height - g.origin_y) - g.bounds.height] ∧
    stepGlyph page_height (groups, some cg) g =
      (groups, some (extendGroup page_height g cg)) ∧
    (extendGroup page_height g cg).font_size = max cg.font_size g.bounds.height ∧
    (extendGroup page_height g cg).ly_pos =
      cg.ly_pos ++ [(page_height - g.origin_y) - max cg.font_size g.bounds.height] := by
  refine ⟨?_, rfl, ?_, rfl, rfl⟩
  · simp [stepGlyph, hacc]
  · simp [stepGlyph, hacc, hext]

theorem y_offset_uses_block_font_size_witness :
    stepGlyph 100 ([], some cgW) gW = ([], some (extendGroup 100 gW cgW)) ∧
    (extendGroup 100 gW cgW).ly_pos =
      cgW.ly_pos ++ [((100:ℚ) - gW.origin_y) - max cgW.font_size gW.bounds.height] := by
  have h := y_offset_uses_block_font_size 100 gW cgW []
    (by with_unfolding_all rfl) (by with_unfolding_all rfl)
  exact ⟨h.2.2.1, h.2.2.2.2⟩

/-- C6: the filter accepts exactly when `origin_x` is nonnegative, the
normalized y `page_height - origin_y` is nonnegative, the text does not
match the pattern, and the bounds height is nonzero — so the y-rejection is
on the normalized value, computed before the check — and the stored
positions pass `origin_x` through unchanged while every stored y is derived
from `page_height - origin_y`. -/
theorem normalized_y_before_filter (page_height : ℚ) (g : Glyph) :
    (glyphRejected page_height g = false ↔
      (0 ≤ g.origin_x ∧ 0 ≤ page_height - g.origin_y ∧
        re_is_match g.text = false ∧ g.bounds.height ≠ 0)) ∧
    (seedGroup page_height g).lx_pos = [g.origin_x] ∧
    (seedGroup page_height g).ly_pos =
      [(page_height - g.origin_y) - g.bounds.height] ∧
    ∀ cg : GeneratedRect,
      (extendGroup page_height g cg).lx_pos = cg.lx_pos ++ [g.origin_x] ∧
      (extendGroup page_height g cg).ly_pos =
        cg.ly_pos ++
          [(page_height - g.origin_y) - max cg.font_size g.bounds.height] := by
  refine ⟨?_, rfl, rfl, fun cg => ⟨rfl, rfl⟩⟩
  simp [glyphRejected, not_lt, and_assoc]

/-- C10: a strictly negative bounds height is not caught by the
degenerate-glyph check (which tests equality with zero only): such a glyph
is accepted, clustered, and a block it seeds records the negative height as
its `font_size`. -/
theorem negative_height_accepted (page_height : ℚ) (g : Glyph)
    (hx : 0 ≤ g.origin_x) (hy : g.origin_y ≤ page_height)
    (ht : re_is_match g.text = false) (hh : g.bounds.height < 0) :
    glyphRejected page_height g = false ∧
    extract_page_text_groups page_height [g] = [seedGroup page_height g] ∧
    (seedGroup page_height g).font_size = g.bounds.height := by
  have hacc : glyphRejected page_height g = false := by
    simp [glyphRejected, not_lt, ht, hx, hy, sub_nonneg.mpr hy, ne_of_lt hh]
  refine ⟨hacc, ?_, rfl⟩
  simp [extract_page_text_groups, stepGlyph, hacc, closeGroups]

/-- Concrete glyph with bounds height `-3` for the C10 witness. -/
def negHeightGlyph : Glyph :=
  { text := "x", font_family := "Arial", origin_x := 5, origin_y := 40,
    bounds := { left := 5, right := 9, width := 4, height := -3 } }

theorem negative_height_accepted_witness :
    glyphRejected 100 negHeightGlyph = false ∧
    extract_page_text_groups 100 [negHeightGlyph] = [seedGroup 100 negHeightGlyph] ∧
    (seedGroup 100 negHeightGlyph).font_size = negHeightGlyph.bounds.height :=
  negative_height_accepted 100 negHeightGlyph (by norm_num [negHeightGlyph])
    (by norm_num [negHeightGlyph]) (by with_unfolding_all rfl)
    (by norm_num [negHeightGlyph])

/-- Concrete glyph whose text is the single control character U+0001 and
whose other attributes pass every other filter check. -/
def ctrlGlyph : Glyph :=
  { text := "\x01", font_family := "Arial", origin_x := 10, origin_y := 10,
    bounds := { left := 10, right := 18, width := 8, height := 12 } }

/-- C1 (code bug): the pattern's literal solidus delimiters make the filter
miss bare control and line-feed characters.  A glyph whose text is the bare
control character U+0001 (or a bare line feed) is not matched, passes the
filter, and seeds a block, while the pattern does match a solidus followed
by that character, and a bare carriage return.  This contradicts the
source's own comment, which says a non-printable char is skipped. -/
theorem control_char_glyph_accepted :
    re_is_match "\x01" = false ∧
    re_is_match "\n" = false ∧
    re_is_match "/\x01" = true ∧
    re_is_match "\r" = true ∧
    glyphRejected 100 ctrlGlyph = false ∧
    extract_page_text_groups 100 [ctrlGlyph] = [seedGroup 100 ctrlGlyph] ∧
    (seedGroup 100 ctrlGlyph).text = "\x01" := by
  with_unfolding_all decide

/-- C3 (counterexample): at page width 7 and scale `0.25` the source
requests a raster 1 pixel wide (`(7.0 * 0.25) as i32` truncates toward
zero), while rounding `7 * 0.25 = 1.75` to the nearest integer gives 2. -/
theorem requested_size_truncates_not_rounds :
    (renderConfigFor 7 7 (clearColor false) (1/4)).target_width = 1 ∧
    round ((7:ℚ) * (1/4)) = 2 := by
  constructor
  · with_unfolding_all rfl
  · norm_num [round_eq]

lemma generate_page_images_go_total (render : PdfRenderConfig → Option (List ℕ))
    (page_width page_height : ℚ) (color : PdfColor)
    (hr : ∀ cfg, (render cfg).isSome = true) :
    ∀ ss : List ℚ,
      generate_page_images_go render page_width page_height color ss =
        some (ss.map (fun s =>
          { scale := s
          , buffer :=
              (render (renderConfigFor page_width page_height color s)).getD [] })) := by
  intro ss
  induction ss with
  | nil => rfl
  | cons s rest ih =>
    obtain ⟨buf, hbuf⟩ :=
      Option.isSome_iff_exists.mp (hr (renderConfigFor page_width page_height color s))
    simp [generate_page_images_go, hbuf, ih]

/-- C3 (amended): when every scale's render-and-encode succeeds, the
coordinator returns exactly one buffer per scale of the fixed ascending set
`{0.25, 0.5, 1.0, 1.5, 2.0}`, in that order, and each raster is requested at
the integer pixel size obtained by truncating `page_width * scale` and
`page_height * scale` toward zero. -/
theorem generate_page_images_five_scales
    (render : PdfRenderConfig → Option (List ℕ))
    (page_width page_height : ℚ) (t : Bool)
    (hr : ∀ cfg, (render cfg).isSome = true) :
    generate_page_images render page_width page_height t =
      some (scales.map (fun s =>
        { scale := s
        , buffer :=
            (render (renderConfigFor page_width page_height (clearColor t) s)).getD [] })) ∧
    scales.length = 5 ∧
    List.Chain' (fun a b : ℚ => a < b) scales ∧
    ∀ s : ℚ,
      (renderConfigFor page_width page_height (clearColor t) s).target_width =
        f32_as_i32 (page_width * s) ∧
      (renderConfigFor page_width page_height (clearColor t) s).target_height =
        f32_as_i32 (page_height * s) := by
  refine ⟨?_, rfl, ?_, fun s => ⟨rfl, rfl⟩⟩
  · exact generate_page_images_go_total render page_width page_height
      (clearColor t) hr scales
  · norm_num [scales, List.chain'_cons]

theorem generate_page_images_five_scales_witness :
    generate_page_images (fun _ => some []) 7 3 true =
      some (scales.map (fun s =>
        { scale := s
        , buffer :=
            ((fun (_ : PdfRenderConfig) => some ([] : List ℕ))
                (renderConfigFor 7 3 (clearColor true) s)).getD [] })) ∧
    scales.length = 5 ∧
    List.Chain' (fun a b : ℚ => a < b) scales ∧
    ∀ s : ℚ,
      (renderConfigFor 7 3 (clearColor true) s).target_width = f32_as_i32 (7 * s) ∧
      (renderConfigFor 7 3 (clearColor true) s).target_height = f32_as_i32 (3 * s) :=
  generate_page_images_five_scales (fun _ => some []) 7 3 true (fun _ => rfl)

/-- Oracle that fails exactly on the 25-pixel-wide request (the 0.25 scale
of a 100-unit-wide page) and succeeds on every other request. -/
def failingRender : PdfRenderConfig → Option (List ℕ) :=
  fun cfg => if cfg.target_width = 25 then none else some []

/-- C4 (code bug): with an oracle that fails only at scale `0.25` of a
100 × 100 page, the source's `unwrap` aborts the whole multi-scale request
(`none`), although the renders for the four remaining scales all succeed;
no per-scale report is produced. -/
theorem one_failed_scale_discards_all :
    generate_page_images failingRender 100 100 false = none ∧
    failingRender (renderConfigFor 100 100 (clearColor false) (1/4)) = none ∧
    ([(1:ℚ)/2, 1, 3/2, 2].all (fun s =>
      (failingRender (renderConfigFor 100 100 (clearColor false) s)).isSome)) = true := by
  with_unfolding_all decide

lemma closeGroups_step_join {α : Type} (page_height : ℚ)
    (f : GeneratedRect → List α) (m : Glyph → List α)
    (hseed : ∀ g, f (seedGroup page_height g) = m g)
    (hext : ∀ g cg, f (extendGroup page_height g cg) = f cg ++ m g)
    (st : List GeneratedRect × Option GeneratedRect) (g : Glyph) :
    ((closeGroups (stepGlyph page_height st g)).map f).flatten =
      ((closeGroups st).map f).flatten ++
        (if glyphRejected page_height g = true then [] else m g) := by
  obtain ⟨groups, cur⟩ := st
  by_cases hr : glyphRejected page_height g = true
  · simp [stepGlyph, hr]
  · cases cur with
    | none => simp [stepGlyph, hr, closeGroups, hseed]
    | some cg =>
      by_cases hn : is_new_group g cg = true
      · simp [stepGlyph, hr, hn, closeGroups, hseed]
      · simp [stepGlyph, hr, hn, closeGroups, hext]

lemma closeGroups_fold_join {α : Type} (page_height : ℚ)
    (f : GeneratedRect → List α) (m : Glyph → List α)
    (hseed : ∀ g, f (seedGroup page_height g) = m g)
    (hext : ∀ g cg, f (extendGroup page_height g cg) = f cg ++ m g)
    (gs : List Glyph) (st : List GeneratedRect × Option GeneratedRect) :
    ((closeGroups (gs.foldl (stepGlyph page_height) st)).map f).flatten =
      ((closeGroups st).map f).flatten ++
        ((acceptedGlyphs page_height gs).map m).flatten := by
  induction gs generalizing st with
  | nil => simp [acceptedGlyphs]
  | cons g gs ih =>
    rw [List.foldl_cons, ih (stepGlyph page_height st g),
      closeGroups_step_join page_height f m hseed hext st g]
    by_cases hr : glyphRejected page_height g = true
    · simp [acceptedGlyphs, List.filter_cons, hr]
    · simp [acceptedGlyphs, List.filter_cons, hr, List.append_assoc]

/-- Well-formedness of an emitted block: a nonempty x-position list and
matching x/y position list lengths. -/
def blockWF (b : GeneratedRect) : Bool :=
  !b.lx_pos.isEmpty && b.ly_pos.length == b.lx_pos.length

lemma blockWF_seed (page_height : ℚ) (g : Glyph) :
    blockWF (seedGroup page_height g) = true := rfl

lemma blockWF_extend (page_height : ℚ) (g : Glyph) (cg : GeneratedRect)
    (h : blockWF cg = true) : blockWF (extendGroup page_height g cg) = true := by
  simp only [blockWF, Bool.and_eq_true, Bool.not_eq_true', List.isEmpty_eq_false,
    beq_iff_eq] at h ⊢
  simp [extendGroup, h.2]

lemma blockWF_step (page_height : ℚ)
    (st : List GeneratedRect × Option GeneratedRect) (g : Glyph)
    (h : ∀ b ∈ closeGroups st, blockWF b = true) :
    ∀ b ∈ closeGroups (stepGlyph page_height st g), blockWF b = true := by
  obtain ⟨groups, cur⟩ := st
  by_cases hr : glyphRejected page_height g = true
  · simpa [stepGlyph, hr] using h
  · cases cur with
    | none =>
      intro b hb
      simp only [stepGlyph, hr, closeGroups] at hb ⊢
      simp only [Bool.false_eq_true, if_false, List.mem_append,
        List.mem_singleton] at hb
      rcases hb with hb | hb
      · exact h b (by simpa [closeGroups] using hb)
      · subst hb; exact blockWF_seed page_height g
    | some cg =>
      have hcg : blockWF cg = true := h cg (by simp [closeGroups])
      intro b hb
      by_cases hn : is_new_group g cg = true
      · simp only [stepGlyph, hr, hn, closeGroups, Bool.false_eq_true, if_false,
          if_true, List.mem_append, List.mem_singleton] at hb
        rcases hb with (hb | hb) | hb
        · exact h b (by simp [closeGroups, hb])
        · subst hb; exact hcg
        · subst hb; exact blockWF_seed page_height g
      · simp only [stepGlyph, hr, hn, closeGroups, Bool.false_eq_true, if_false,
          List.mem_append, List.mem_singleton] at hb
        rcases hb with hb | hb
        · exact h b (by simp [closeGroups, hb])
        · subst hb; exact blockWF_extend page_height g cg hcg

lemma blockWF_fold (page_height : ℚ) (gs : List Glyph)
    (st : List GeneratedRect × Option GeneratedRect)
    (h : ∀ b ∈ closeGroups st, blockWF b = true) :
    ∀ b ∈ closeGroups (gs.foldl (stepGlyph page_height) st), blockWF b = true := by
  induction gs generalizing st with
  | nil => exact h
  | cons g gs ih =>
    rw [List.foldl_cons]
    exact ih (stepGlyph page_height st g) (blockWF_step page_height _ g h)

lemma length_le_flattenX_length (bs : List GeneratedRect)
    (h : ∀ b ∈ bs, blockWF b = true) :
    bs.length ≤ ((bs.map GeneratedRect.lx_pos).flatten).length := by
  induction bs with
  | nil => simp
  | cons b bs ih =>
    simp only [List.map_cons, List.flatten_cons, List.length_append, List.length_cons]
    have hb := h b (by simp)
    simp only [blockWF, Bool.and_eq_true, Bool.not_eq_true',
      List.isEmpty_eq_false, beq_iff_eq] at hb
    have h1 : 1 ≤ b.lx_pos.length := List.length_pos.mpr hb.1
    have h2 := ih (fun b hb => h b (by simp [hb]))
    omega

lemma flatten_map_singleton {α β : Type} (f : α → β) (l : List α) :
    (l.map (fun a => [f a])).flatten = l.map f := by
  induction l with
  | nil => rfl
  | cons a l ih => simp [ih]

/-- C7: the clustering pass emits at most one block per accepted glyph,
every accepted glyph's x-position and text land in the output blocks exactly
once and in arrival order, every emitted block is nonempty with x- and
y-position lists of equal length, and the output is empty exactly when no
glyph is accepted (so also for the empty stream). -/
theorem clustering_partitions_accepted (page_height : ℚ) (gs : List Glyph) :
    (extract_page_text_groups page_height gs).length ≤
      (acceptedGlyphs page_height gs).length ∧
    ((extract_page_text_groups page_height gs).map GeneratedRect.lx_pos).flatten =
      (acceptedGlyphs page_height gs).map Glyph.origin_x ∧
    ((extract_page_text_groups page_height gs).map (fun b => b.text.data)).flatten =
      ((acceptedGlyphs page_height gs).map (fun g => g.text.data)).flatten ∧
    ((extract_page_text_groups page_height gs).all blockWF) = true ∧
    (extract_page_text_groups page_height gs = [] ↔
      acceptedGlyphs page_height gs = []) := by
  have hx :
      ((extract_page_text_groups page_height gs).map GeneratedRect.lx_pos).flatten =
        (acceptedGlyphs page_height gs).map Glyph.origin_x := by
    have := closeGroups_fold_join page_height GeneratedRect.lx_pos
      (fun g => [g.origin_x]) (fun g => rfl) (fun g cg => rfl) gs ([], none)
    rw [extract_page_text_groups, this]
    simp [closeGroups, flatten_map_singleton]
  have hwf : ∀ b ∈ extract_page_text_groups page_height gs, blockWF b = true :=
    blockWF_fold page_height gs ([], none) (by simp [closeGroups])
  have hlen : (extract_page_text_groups page_height gs).length ≤
      (acceptedGlyphs page_height gs).length := by
    have h1 := length_le_flattenX_length (extract_page_text_groups page_height gs) hwf
    rw [hx] at h1
    simpa using h1
  refine ⟨hlen, hx, ?_, ?_, ?_, ?_⟩
  · have := closeGroups_fold_join page_height (fun b => b.text.data)
      (fun g => g.text.data) (fun g => rfl)
      (fun g cg => by simp [extendGroup]) gs ([], none)
    rw [extract_page_text_groups, this]
    simp [closeGroups]
  · exact List.all_eq_true.mpr hwf
  · intro he
    have : (acceptedGlyphs page_height gs).map Glyph.origin_x = [] := by
      rw [← hx, he]; rfl
    exact List.map_eq_nil_iff.mp this
  · intro he
    rw [he] at hlen
    simpa using List.length_eq_zero.mp (Nat.le_zero.mp (by simpa using hlen))

lemma foldl_append_eq_concat {α : Type} (f : α → String) (l : List α) :
    ∀ init : String,
      l.foldl (fun acc r => acc ++ f r) init = init ++ concatStrings (l.map f) := by
  induction l with
  | nil => intro init; simp [concatStrings]
  | cons a l ih =>
    intro init
    rw [List.foldl_cons, ih (init ++ f a), List.map_cons, concatStrings,
      String.append_assoc]

/-- Structural form of the serializer on a nonempty block list: the
container tag, one text-run element per block, the closing tag. -/
lemma get_string_from_rects_eq (page_width page_height : ℚ)
    (rects : List GeneratedRect) (hne : rects ≠ []) :
    get_string_from_rects page_width page_height rects =
      svgOpenTag page_width page_height ++
        concatStrings (rects.map (fun r =>
          textRunElem r.font_size (joinNums r.lx_pos) (joinNums r.ly_pos) r.text)) ++
        "</svg>" := by
  unfold get_string_from_rects
  rw [if_neg (by simpa using hne)]
  rw [show (fun (acc : String) (r : GeneratedRect) =>
      acc ++ textOpenTag r.font_size ++ tspanTag r) = fun acc r =>
      acc ++ (textOpenTag r.font_size ++ tspanTag r) from
    funext fun acc => funext fun r => String.append_assoc _ _ _]
  rw [foldl_append_eq_concat (fun r => textOpenTag r.font_size ++ tspanTag r) rects]
  have hmap : rects.map (fun r => textOpenTag r.font_size ++ tspanTag r) =
      rects.map (fun r =>
        textRunElem r.font_size (joinNums r.lx_pos) (joinNums r.ly_pos) r.text) := by
    apply List.map_congr_left
    intro r _
    apply String.ext
    simp [tspanTag, textRunElem, String.data_append]
  rw [hmap]

/-- C8: the serializer returns the empty string on an empty block sequence,
and otherwise one container tag carrying the page width and height followed
by one text-run element per block — each carrying that block's `font_size`,
its whitespace-joined x- and y-position lists, and its text as content —
and the closing tag. -/
theorem serializer_shape (page_width page_height : ℚ)
    (rects : List GeneratedRect) :
    get_string_from_rects page_width page_height [] = "" ∧
    (rects ≠ [] →
      get_string_from_rects page_width page_height rects =
        svgOpenTag page_width page_height ++
          concatStrings (rects.map (fun r =>
            textRunElem r.font_size (joinNums r.lx_pos) (joinNums r.ly_pos)
              r.text)) ++
          "</svg>") :=
  ⟨rfl, get_string_from_rects_eq page_width page_height rects⟩

lemma mem_concatStrings_of_mem {α : Type} (f : α → String) (l : List α)
    (a : α) (c : Char) (ha : a ∈ l) (hc : c ∈ (f a).data) :
    c ∈ (concatStrings (l.map f)).data := by
  induction l with
  | nil => cases ha
  | cons b l ih =>
    rw [List.map_cons, concatStrings, String.data_append, List.mem_append]
    rcases List.mem_cons.mp ha with h | h
    · subst h; exact Or.inl hc
    · exact Or.inr (ih h)

/-- C9: the serializer inserts each block's text verbatim, without escaping:
any character of any block's text — in particular a markup-special one such
as a solidus-bracket, ampersand or closing bracket — occurs in the
serialized output. -/
theorem block_text_unescaped_in_output (page_width page_height : ℚ)
    (rects : List GeneratedRect) (r : GeneratedRect) (c : Char)
    (hr : r ∈ rects) (hc : c ∈ r.text.data) :
    c ∈ (get_string_from_rects page_width page_height rects).data := by
  have hne : rects ≠ [] := by
    intro h; rw [h] at hr; cases hr
  rw [get_string_from_rects_eq page_width page_height rects hne]
  rw [String.data_append, String.data_append]
  refine List.mem_append.mpr (Or.inl (List.mem_append.mpr (Or.inr ?_)))
  refine mem_concatStrings_of_mem _ rects r c hr ?_
  unfold textRunElem
  simp only [String.data_append, List.mem_append]
  tauto

/-- Block whose text contains the three markup-special characters, for the
C9 witness. -/
def specialRect : GeneratedRect :=
  { lx_pos := [1], ly_pos := [2], text := "a<&>b", font_family := "F",
    right := 0, font_size := 3 }

theorem block_text_unescaped_in_output_witness :
    '<' ∈ (get_string_from_rects 10 10 [specialRect]).data :=
  block_text_unescaped_in_output 10 10 [specialRect] specialRect '<'
    (List.mem_singleton.mpr rfl) (by decide)
